import Mathlib

/-!
# Verification of the jtfadump2 experiment orchestration core

Shallow embedding of the jtfadump2 repository (experiment stepping state
machine, orchestrator main loop, PID regulator update, retry wrapper,
threshold post-processor, capture pipeline, primary-key resolution),
together with proofs and refutations of the specification's claims.

Each definition is translated from the named Python source location.
Machine reals (Python floats) that only participate in field-arithmetic
identities are modelled as rationals; Python object identity is modelled
by numeric identifiers; Python exceptions are modelled with `Option` /
`Except` result types.
-/

namespace Jtfadump

/-! ## Stepped experiment counters

From `src/experiment.py`, class `_SteppedExperiment` (lines 79-124).
`stepMax` models `_step_maximum()` (fixed by the configuration for the
whole run: the length of the configured value list, or a fixed count),
`currentStep` models `self._current_step` and `nextStep` models
`self._next_step`; both start at zero in `__init__`.
-/

structure ExpState where
  stepMax : Nat
  currentStep : Nat
  nextStep : Nat
deriving DecidableEq, Repr

/-- State of a freshly constructed `_SteppedExperiment` with
`_step_maximum() = m` (`__init__`, lines 80-86: both counters zero). -/
def initExp (m : Nat) : ExpState :=
  { stepMax := m, currentStep := 0, nextStep := 0 }

/-- `_SteppedExperiment.has_next` (lines 100-101):
`return self._next_step < self._step_maximum()`. -/
def hasNext (e : ExpState) : Bool :=
  e.nextStep < e.stepMax

/-- `_SteppedExperiment.step` (lines 88-92).  The source body is exactly
`self._current_step = self._next_step; self._next_step += 1` followed by a
log line; there is no `has_next()` check and no raise statement of any
kind, so the function is total. -/
def stepExp (e : ExpState) : ExpState :=
  { stepMax := e.stepMax, currentStep := e.nextStep, nextStep := e.nextStep + 1 }

/-- `_SteppedExperiment.reset` (lines 94-98): both counters return to 0. -/
def resetExp (e : ExpState) : ExpState :=
  { stepMax := e.stepMax, currentStep := 0, nextStep := 0 }

/-! ## C2: behaviour of `step()` with no remaining steps -/

/-- C2 (counterexample): the claim says `step()` raises `ExperimentError`
and does not advance when `has_next()` is false.  In the code
(`src/experiment.py` lines 88-92) there is no check at all — no
`ExperimentError` class even exists in the repository — and the counter
advances unconditionally.  Concretely, for the state with
`step_maximum = 1, current_step = 0, next_step = 1`, `has_next()` is
false yet `step()` returns normally with the counter advanced. -/
theorem c2_counterexample :
    hasNext { stepMax := 1, currentStep := 0, nextStep := 1 } = false ∧
    stepExp { stepMax := 1, currentStep := 0, nextStep := 1 } =
      { stepMax := 1, currentStep := 1, nextStep := 2 } := by
  constructor
  · rfl
  · rfl

/-- C2 (amended): `step()` performs no `has_next()` check and cannot fail:
it unconditionally sets `current_step := next_step` and increments
`next_step` by one — exactly one unit per call — even when `has_next()`
is false.  In particular, iterating `step()` from a fresh experiment
drives `next_step` to any value `n`, including values past
`step_maximum` (no guard ever fires). -/
theorem c2_amended :
    (∀ e : ExpState,
        (stepExp e).currentStep = e.nextStep ∧
        (stepExp e).nextStep = e.nextStep + 1 ∧
        (stepExp e).stepMax = e.stepMax) ∧
    (∀ m n : Nat, (stepExp^[n] (initExp m)).nextStep = n) := by
  refine ⟨fun e => ⟨rfl, rfl, rfl⟩, fun m n => ?_⟩
  induction n with
  | zero => rfl
  | succ k ih =>
      rw [Function.iterate_succ_apply']
      simpa [stepExp] using ih

/-! ## Python runtime values for the resume-state model

`set_resume_state` in `src/experiment.py` manipulates Python tuples with
slices, so its behaviour depends on the dynamic distinction between a
scalar and a tuple.  `PyVal` models the runtime values involved; `pyAdd`
models the binary `+` (numbers add, tuples and strings concatenate, any
other combination raises `TypeError`, modelled as `none`); `pyTruthy`
models `bool(v)` as used by `if`/`not` (`None`, zero, `False` and empty
containers are falsy; `noneV` models Python's `None`). -/

inductive PyVal where
  | noneV
  | num (n : Int)
  | bool (b : Bool)
  | str (s : String)
  | tup (l : List PyVal)

def pyAdd : PyVal → PyVal → Option PyVal
  | .num a, .num b => some (.num (a + b))
  | .str a, .str b => some (.str (a ++ b))
  | .tup a, .tup b => some (.tup (a ++ b))
  | _, _ => none

def pyTruthy : PyVal → Bool
  | .noneV => false
  | .num n => n != 0
  | .bool b => b
  | .str s => s != ""
  | .tup [] => false
  | .tup (_ :: _) => true

/-! ## C3: resume-state round trip for `SynchronisedTimeExperiment`

From `src/experiment.py`.  The relevant mutable attributes of a
`SynchronisedTimeExperiment` are `_first` (lines 397, 420, 425),
`_timer` (inherited from `TimeExperiment`, lines 308, 322-323, 409-418)
and the `_SteppedExperiment` counters.  `delay` models the scalar form of
`config['delay']`; `syncOnFirst` models `config.get('sync_on_first')`.
Wall-clock times are modelled as integers (the defect below is
type-structural and does not depend on float semantics). -/

structure SyncTimeExp where
  first : PyVal
  timer : PyVal
  currentStep : Int
  nextStep : Int
  delay : Int
  syncOnFirst : Bool

/-- `SynchronisedTimeExperiment.get_resume_state` (line 422-423):
`(self._first,) + super().get_resume_state()`, where
`TimeExperiment.get_resume_state` (lines 319-320) is
`(self._timer,) + super().get_resume_state()` and the
`_SteppedExperiment` part (lines 103-104) is
`(self._current_step, self._next_step)`. -/
def getResumeState (e : SyncTimeExp) : List PyVal :=
  [e.first, e.timer, .num e.currentStep, .num e.nextStep]

/-- `SynchronisedTimeExperiment.set_resume_state` (lines 425-428):
`self._first = state[:1]` — a length-1 tuple SLICE, not the element
`state[0]` — then `super().set_resume_state(state[1:])`;
`TimeExperiment.set_resume_state` (lines 322-325) likewise does
`self._timer = state[:1]`, and the `_SteppedExperiment` part (lines
106-107) unpacks `self._current_step, self._next_step = state`
(requires exactly two elements; the source only ever feeds it integer
counters, so non-numeric elements are returned as `none`). -/
def setResumeState (e : SyncTimeExp) (state : List PyVal) : Option SyncTimeExp :=
  let first := PyVal.tup (state.take 1)
  let rest := state.drop 1
  let timer := PyVal.tup (rest.take 1)
  match rest.drop 1 with
  | [.num c, .num n] =>
      some { e with first := first, timer := timer, currentStep := c, nextStep := n }
  | _ => none

/-- `SynchronisedTimeExperiment.step` (lines 402-420), with `now`
standing for `time.time()`: advance the counters
(`super(TimeExperiment, self).step()`), re-anchor `_timer` to `now` on
the first step when `sync_on_first` is set, compute
`wake_time = self._timer + self._get_delay()` (a `TypeError`, i.e.
`none`, when `_timer` is not a number), sleep, then
`self._timer += self._get_delay()` and `self._first = True`.  The sleep
itself has no effect on the experiment state. -/
def syncStep (e : SyncTimeExp) (now : Int) : Option SyncTimeExp :=
  let timer1 := if e.syncOnFirst && !pyTruthy e.first then PyVal.num now else e.timer
  match pyAdd timer1 (.num e.delay) with
  | none => none
  | some _wake =>
      match pyAdd timer1 (.num e.delay) with
      | none => none
      | some timer2 =>
          some { e with currentStep := e.nextStep, nextStep := e.nextStep + 1,
                        timer := timer2, first := .bool true }

/-- C3: the round-trip law fails in the code.  Take an original
`SynchronisedTimeExperiment` in its post-construction state
(`_first = False`, `_timer = 100`, counters zero, `delay = 5`,
`sync_on_first = True`).  Restoring `get_resume_state()` of the original
into a fresh instance stores the tuple slices `(False,)` into `_first`
and `(100,)` into `_timer` (instead of the scalars).  The original's
next `step()` succeeds normally, but the restored instance's next
`step()` hits `wake_time = self._timer + self._get_delay()` with
`_timer` a tuple — a `TypeError` — so the subsequent stepping behaviour
is not reproduced. -/
theorem c3_roundtrip_bug :
    (setResumeState
        { first := .bool false, timer := .num 0, currentStep := 0, nextStep := 0,
          delay := 5, syncOnFirst := true }
        (getResumeState
          { first := .bool false, timer := .num 100, currentStep := 0, nextStep := 0,
            delay := 5, syncOnFirst := true }) =
      some { first := .tup [.bool false], timer := .tup [.num 100], currentStep := 0,
             nextStep := 0, delay := 5, syncOnFirst := true }) ∧
    (syncStep
        { first := .bool false, timer := .num 100, currentStep := 0, nextStep := 0,
          delay := 5, syncOnFirst := true } 101 =
      some { first := .bool true, timer := .num 106, currentStep := 0, nextStep := 1,
             delay := 5, syncOnFirst := true }) ∧
    (syncStep
        { first := .tup [.bool false], timer := .tup [.num 100], currentStep := 0,
          nextStep := 0, delay := 5, syncOnFirst := true } 101 =
      none) := by
  exact ⟨rfl, rfl, rfl⟩

/-! ## C5: PID regulator update

From `src/controller.py`: `OutputLimit.clamp` (lines 12-18) and
`PIDRegulator._update` (lines 93-116).  Gains, inputs and limits are
modelled as rationals.  `inPrevious` models `self._in_previous`, which
`__init__` (line 45) sets to `None`; the update's differential line
computes `in_value - self._in_previous`, which is a `TypeError`
(modelled `none`) whenever `_in_previous` is still `None` — i.e. on the
very first period.  (Note the integral assignment on line 104 precedes
that failure, but the update aborts before any output is written.) -/

def clampLimit (minimum maximum value : ℚ) : ℚ :=
  if value < minimum then minimum
  else if value > maximum then maximum
  else value

structure PIDState where
  target : ℚ
  integral : ℚ
  inPrevious : Option ℚ

/-- One period of `PIDRegulator._update` (lines 96-113): reads `input`,
computes `in_error = in_value - self._target`, clamps the integral
accumulator, computes the differential from the previous input, clamps
the output and returns it with the successor state.  Returns `none`
(TypeError) when `inPrevious` is `None`. -/
def pidUpdate (kp ki kd mn mx : ℚ) (s : PIDState) (input : ℚ) :
    Option (ℚ × PIDState) :=
  let inError := input - s.target
  let integral := clampLimit mn mx (s.integral + ki * inError)
  match s.inPrevious with
  | none => none
  | some prev =>
      let inDifferential := kd * (input - prev)
      let out := clampLimit mn mx (kp * inError + integral + inDifferential)
      some (out, { s with integral := integral, inPrevious := some input })

lemma clampLimit_le (mn mx v : ℚ) (h : mn ≤ mx) :
    mn ≤ clampLimit mn mx v ∧ clampLimit mn mx v ≤ mx := by
  unfold clampLimit
  split
  · exact ⟨le_refl _, h⟩
  · split
    · exact ⟨h, le_refl _⟩
    · constructor <;> linarith

/-- C5: the very first update period after `start()` always fails.
`__init__` leaves `self._in_previous = None`, and the first `_update`
iteration computes `in_value - self._in_previous` — a `TypeError` — for
every choice of gains, limits, target, accumulated integral and input,
so no output (let alone a clamped one) is ever written on the first
period, contradicting the claim.  For every later period (previous
input present) the update does succeed and its written output is within
`[min, max]`, as the claim states for those periods. -/
theorem c5_pid_first_update :
    (∀ kp ki kd mn mx tgt intg input : ℚ,
        pidUpdate kp ki kd mn mx
          { target := tgt, integral := intg, inPrevious := none } input = none) ∧
    (∀ kp ki kd mn mx tgt intg prev input : ℚ, mn ≤ mx →
        ∃ out s',
          pidUpdate kp ki kd mn mx
            { target := tgt, integral := intg, inPrevious := some prev } input =
            some (out, s') ∧ mn ≤ out ∧ out ≤ mx) := by
  constructor
  · intro kp ki kd mn mx tgt intg input
    rfl
  · intro kp ki kd mn mx tgt intg prev input hmn
    exact ⟨_, _, rfl,
      (clampLimit_le mn mx _ hmn).1, (clampLimit_le mn mx _ hmn).2⟩

/-- C5 (witness): the theorem's second conjunct instantiated at a
concrete later-period update with window `[-10, 10]`. -/
theorem c5_pid_first_update_witness :
    (-10 : ℚ) ≤ 10 ∧
    ∃ out s',
      pidUpdate 1 0 0 (-10) 10
        { target := 0, integral := 0, inPrevious := some 2 } 5 =
        some (out, s') ∧ (-10 : ℚ) ≤ out ∧ out ≤ 10 := by
  exact ⟨by norm_num, c5_pid_first_update.2 1 0 0 (-10) 10 0 0 2 5 (by norm_num)⟩

/-! ## C6: `ExceptionRetry.__call__` retry wrapper

From `src/util.py`, lines 55-130.  A call to the wrapped function `f` is
modelled by an oracle `f : Nat → CallOutcome` giving the outcome of the
attempt with that index: a returned value, an exception of one of the
expected (`transient`) types, or any other (`fatal`) exception.
`retryRun resetConfigured f remaining attempt` models the
`for attempt in range(retry)` loop with `remaining` attempts left and
`attempt` the current index: on success the value is returned; on a
transient exception with `attempt_remain = (retry - 1) - attempt = 0`
the exception is re-raised (line 83-84); otherwise the optional reset
hook is invoked (lines 113-122, counted in the second component when
one is configured) and the loop continues; a fatal exception is
re-raised at once (lines 126-128).  If `range(retry)` is empty the
function falls off the loop and returns Python's `None`
(`noReturn`). -/

inductive CallOutcome where
  | success (v : Nat)
  | transient
  | fatal
deriving DecidableEq, Repr

inductive RetryResult where
  | ok (v : Nat)
  | raisedTransient
  | raisedFatal
  | noReturn
deriving DecidableEq, Repr

def retryRun (resetConfigured : Bool) (f : Nat → CallOutcome) :
    Nat → Nat → RetryResult × Nat
  | 0, _ => (.noReturn, 0)
  | r + 1, a =>
      match f a with
      | .success v => (.ok v, 0)
      | .fatal => (.raisedFatal, 0)
      | .transient =>
          if r = 0 then (.raisedTransient, 0)
          else
            let rec' := retryRun resetConfigured f r (a + 1)
            (rec'.1, (if resetConfigured then 1 else 0) + rec'.2)

lemma retryRun_success (f : Nat → CallOutcome) (v : Nat) :
    ∀ k r a, k < r → (∀ i, i < k → f (a + i) = .transient) →
      f (a + k) = .success v → retryRun true f r a = (.ok v, k) := by
  intro k
  induction k with
  | zero =>
      intro r a hr _ hs
      obtain ⟨r', rfl⟩ := Nat.exists_eq_add_of_lt hr
      simp only [Nat.add_zero] at hs
      simp [retryRun, Nat.add_comm, hs]
  | succ k ih =>
      intro r a hr ht hs
      obtain ⟨r', rfl⟩ := Nat.exists_eq_add_of_lt hr
      have h0 : f a = .transient := by
        have := ht 0 (Nat.succ_pos k)
        simpa using this
      rw [retryRun, h0]
      rw [if_neg (by omega : ¬ k + 1 + r' = 0)]
      have ht' : ∀ i, i < k → f (a + 1 + i) = .transient := by
        intro i hi
        have := ht (i + 1) (by omega)
        simpa [Nat.add_assoc, Nat.add_comm 1 i] using this
      have hs' : f (a + 1 + k) = .success v := by
        have : a + 1 + k = a + (k + 1) := by omega
        rw [this]; exact hs
      have := ih (k + 1 + r') (a + 1) (by omega) ht' hs'
      simp [this]
      omega

lemma retryRun_exhaust (f : Nat → CallOutcome) :
    ∀ r a, 1 ≤ r → (∀ i, i < r → f (a + i) = .transient) →
      retryRun true f r a = (.raisedTransient, r - 1) := by
  intro r
  induction r with
  | zero => intro a h; omega
  | succ r ih =>
      intro a _ ht
      have h0 : f a = .transient := by simpa using ht 0 (Nat.succ_pos r)
      rw [retryRun, h0]
      rcases Nat.eq_zero_or_pos r with hr | hr
      · subst hr; simp
      · rw [if_neg (by omega)]
        have ht' : ∀ i, i < r → f (a + 1 + i) = .transient := by
          intro i hi
          have := ht (i + 1) (by omega)
          simpa [Nat.add_assoc, Nat.add_comm 1 i] using this
        have := ih (a + 1) hr ht'
        simp [this]
        omega

lemma retryRun_fatal (f : Nat → CallOutcome) :
    ∀ k r a, k < r → (∀ i, i < k → f (a + i) = .transient) →
      f (a + k) = .fatal → retryRun true f r a = (.raisedFatal, k) := by
  intro k
  induction k with
  | zero =>
      intro r a hr _ hs
      obtain ⟨r', rfl⟩ := Nat.exists_eq_add_of_lt hr
      simp only [Nat.add_zero] at hs
      simp [retryRun, Nat.add_comm, hs]
  | succ k ih =>
      intro r a hr ht hs
      obtain ⟨r', rfl⟩ := Nat.exists_eq_add_of_lt hr
      have h0 : f a = .transient := by simpa using ht 0 (Nat.succ_pos k)
      rw [retryRun, h0]
      rw [if_neg (by omega : ¬ k + 1 + r' = 0)]
      have ht' : ∀ i, i < k → f (a + 1 + i) = .transient := by
        intro i hi
        have := ht (i + 1) (by omega)
        simpa [Nat.add_assoc, Nat.add_comm 1 i] using this
      have hs' : f (a + 1 + k) = .fatal := by
        have : a + 1 + k = a + (k + 1) := by omega
        rw [this]; exact hs
      have := ih (k + 1 + r') (a + 1) (by omega) ht' hs'
      simp [this]
      omega

/-- C6: behaviour of the retry wrapper (`src/util.py` lines 55-130) with
a reset hook configured and `N` configured attempts.  (1) If the first
`k < N` calls raise an expected (transient) exception and call `k`
succeeds with `v`, the wrapped call returns `v` (exactly once — the
loop returns at the first success) and the reset hook is invoked
exactly `k` times.  (2) If all `N` attempts raise transient exceptions,
the last one is re-raised.  (3) If, after `k` transient failures, a
call raises a non-expected exception, it is re-raised immediately: no
further attempt is made and no reset is performed for it (the reset
count stays `k`). -/
theorem c6_retry :
    (∀ (N k v : Nat) (f : Nat → CallOutcome), k < N →
        (∀ i, i < k → f i = .transient) → f k = .success v →
        retryRun true f N 0 = (.ok v, k)) ∧
    (∀ (N : Nat) (f : Nat → CallOutcome), 1 ≤ N →
        (∀ i, i < N → f i = .transient) →
        retryRun true f N 0 = (.raisedTransient, N - 1)) ∧
    (∀ (N k : Nat) (f : Nat → CallOutcome), k < N →
        (∀ i, i < k → f i = .transient) → f k = .fatal →
        retryRun true f N 0 = (.raisedFatal, k)) := by
  refine ⟨fun N k v f hk ht hs => ?_, fun N f hN ht => ?_, fun N k f hk ht hs => ?_⟩
  · exact retryRun_success f v k N 0 hk (by simpa using ht) (by simpa using hs)
  · exact retryRun_exhaust f N 0 hN (by simpa using ht)
  · exact retryRun_fatal f k N 0 hk (by simpa using ht) (by simpa using hs)

/-- C6 (witness): the three conjuncts at concrete oracles with `N = 3`
configured attempts: two transient failures then success returns the
value with two resets; three transient failures re-raise; a transient
failure followed by an unexpected exception re-raises with a single
reset. -/
theorem c6_retry_witness :
    retryRun true (fun i => if i < 2 then .transient else .success 7) 3 0 =
      (.ok 7, 2) ∧
    retryRun true (fun _ => .transient) 3 0 = (.raisedTransient, 2) ∧
    retryRun true (fun i => if i < 1 then .transient else .fatal) 3 0 =
      (.raisedFatal, 1) := by
  refine ⟨?_, ?_, ?_⟩
  · exact c6_retry.1 3 2 7 _ (by decide) (by decide) (by decide)
  · exact c6_retry.2.1 3 _ (by decide) (fun i _ => rfl)
  · exact c6_retry.2.2 3 1 _ (by decide) (by decide) (by decide)

/-! ## C7: `ThresholdPostProcessor.process`

From `src/post_process.py`, lines 20-56.  A configured threshold holds a
field name, a logging level (`logging.getLevelName` of the configured
action), an `exception` flag and optional `min`/`max` bounds (absent
bounds are stored as Python `None`).  Records are modelled as
association lists of integer-valued fields (first binding wins, like a
dict).

The comparison lines are
`limit_min = limit['min'] and field_data < limit['min']` and
symmetrically for `max`, followed by truthiness tests `if limit_min:`.
Python's `and` returns its left operand when that operand is falsy, so
a configured bound of `0` (falsy) short-circuits and the whole
expression is falsy: the test never triggers for a `0` bound.  This is
modelled by the explicit `b ≠ 0` conjunct below. -/

structure Threshold where
  fieldName : String
  level : Nat
  exception : Bool
  minBound : Option Int
  maxBound : Option Int

def lookupField (data : List (String × Int)) (k : String) : Option Int :=
  match data with
  | [] => none
  | (k', v) :: rest => if k' = k then some v else lookupField rest k

/-- `ThresholdPostProcessor.process` (lines 37-56): walks the configured
limits; for each limit whose field is present in the record it logs an
under/over message at the configured level for each truthy comparison,
raises `PostProcessorException` when a comparison is truthy and
`exception` is set, and finally returns the record unchanged.  The
result is the list of emitted log events `(level, field)` paired with
either the returned record or the raised exception. -/
def thresholdProcess (limits : List Threshold) (data : List (String × Int)) :
    List (Nat × String) × Except Unit (List (String × Int)) :=
  match limits with
  | [] => ([], .ok data)
  | t :: ts =>
      match lookupField data t.fieldName with
      | none => thresholdProcess ts data
      | some v =>
          let lmin := match t.minBound with
            | none => false
            | some b => decide (b ≠ 0) && decide (v < b)
          let lmax := match t.maxBound with
            | none => false
            | some b => decide (b ≠ 0) && decide (v > b)
          let logs := (if lmin then [(t.level, t.fieldName)] else []) ++
                      (if lmax then [(t.level, t.fieldName)] else [])
          if (lmin || lmax) && t.exception then (logs, .error ())
          else
            let rest := thresholdProcess ts data
            (logs ++ rest.1, rest.2)

/-- C7: the threshold comparison uses Python truthiness, so a configured
bound of `0` never triggers.  (1) With `min = 0` and `exception = true`,
the value `-1` — strictly below the bound — produces no log and no
exception, and the record is returned unchanged, contradicting the
claim for a bound of `0`.  For nonzero bounds the claim's behaviour
does hold, as (2) and (3) illustrate: a value exactly at a bound does
not trigger, and a value strictly outside a nonzero bound logs at the
configured level and raises when `exception` is set. -/
theorem c7_threshold_zero_bound :
    (thresholdProcess
        [{ fieldName := "x", level := 30, exception := true,
           minBound := some 0, maxBound := none }] [("x", -1)] =
      ([], .ok [("x", -1)])) ∧
    (thresholdProcess
        [{ fieldName := "x", level := 30, exception := true,
           minBound := some 5, maxBound := some 9 }] [("x", 5)] =
      ([], .ok [("x", 5)])) ∧
    (thresholdProcess
        [{ fieldName := "x", level := 30, exception := true,
           minBound := some 5, maxBound := none }] [("x", 4)] =
      ([(30, "x")], .error ())) := by
  exact ⟨rfl, rfl, rfl⟩

/-! ## C8: the post-processing stage of the capture pipeline

From `src/jtfadump2.py`, lines 279-288.  Each post-processor is modelled
as a function from a record to `process`'s result (`some` record, or
`none` for Python `None`).  The source intends the `None` branch to keep
the previous record and log a warning, but the warning line formats
`p.__name__` where `p` is a post-processor *instance*: instance
attribute lookup does not consult the metaclass, and neither
`PostProcessor` nor its subclasses define a `__name__` attribute, so the
lookup raises `AttributeError` before `warn` is even called.  The
exception escapes the `try` block and aborts the loop. -/

inductive PipelineError where
  | attributeError
deriving DecidableEq, Repr

/-- The post-processor loop of `main` (lines 281-288): apply each
processor in order; a non-`None` result replaces the record
(`data = d`); a `None` result reaches
`root_logger.warn("PostProcessor {} returning no data".format(p.__name__))`,
whose attribute lookup raises `AttributeError`. -/
def applyPostProcessors
    (ps : List (List (String × Int) → Option (List (String × Int))))
    (data : List (String × Int)) :
    Except PipelineError (List (String × Int)) :=
  match ps with
  | [] => .ok data
  | p :: rest =>
      match p data with
      | some d => applyPostProcessors rest d
      | none => .error .attributeError

/-- C8: when a post-processor returns `None` the pipeline does not keep
the record and continue with a warning — it raises `AttributeError`
(from `p.__name__` on an instance) and aborts, contradicting the claim
and the source's own comment ("Don't let badly written post-processors
wipe out data").  The second conjunct shows the non-`None` half of the
claim, which does hold: a returned record replaces the current one for
the subsequent post-processors. -/
theorem c8_pipeline_none :
    (applyPostProcessors [fun _ => none] [("a", 1)] =
      .error .attributeError) ∧
    (applyPostProcessors
        [fun _ => some [("b", 2)], fun d => some (("c", 3) :: d)] [("a", 1)] =
      .ok [("c", 3), ("b", 2)]) := by
  exact ⟨rfl, rfl⟩

/-! ## C9: `Experiment.get_primary_key_field`

From `src/experiment.py`, lines 53-76.  `_primary_key_field()` returns a
declared key shape (`None`, a string, or a tuple); `primary` models
`self._primary`.  `pyStrOf` models Python's `str()` for the values that
can appear in a key.  The translation follows the source line by line:

* line 56 `if not primary_key: return None` — falsy key;
* lines 59-65 — a tuple key of length 1 is unwrapped, of length 2 is
  formatted to the string `"{field}[{index}]"`, and any longer tuple
  raises `ExperimentConfigurationException` — note this raise happens
  BEFORE `self._primary` is ever consulted;
* lines 67-71 — a remaining tuple/list of length > 1 would be
  concatenated to a string (a `TypeError` when primary), length ≤ 1 is
  unwrapped (`IndexError` on an empty one);
* line 73 `return self._label + '_' + primary_key if self._primary else
  None`. -/

inductive PyErr where
  | configurationError
  | typeError
  | indexError
deriving DecidableEq, Repr

def pyStrOf : PyVal → String
  | .noneV => "None"
  | .str s => s
  | .num n => toString n
  | .bool b => if b then "True" else "False"
  | .tup _ => "tuple"

/-- Final `return` of `get_primary_key_field` (line 73, also reached
from line 69 for long lists): `self._label + '_' + primary_key` when
primary (a `TypeError` unless the key is a string by then), else
`None`. -/
def labelledKey (label : String) (primary : Bool) (v : PyVal) :
    Except PyErr (Option PyVal) :=
  if primary then
    match v with
    | .str s => .ok (some (.str (label ++ "_" ++ s)))
    | _ => .error .typeError
  else .ok none

def getPrimaryKeyField (label : String) (primary : Bool) (pk : PyVal) :
    Except PyErr (Option PyVal) :=
  if ¬ pyTruthy pk then .ok none
  else
    let step1 : Except PyErr PyVal :=
      match pk with
      | .tup [x] => .ok x
      | .tup [x, y] => .ok (.str (pyStrOf x ++ "[" ++ pyStrOf y ++ "]"))
      | .tup (_ :: _ :: _ :: _) => .error .configurationError
      | .tup [] => .ok (.tup [])
      | v => .ok v
    match step1 with
    | .error e => .error e
    | .ok pk1 =>
        match pk1 with
        | .tup l =>
            if l.length > 1 then labelledKey label primary pk1
            else
              match l with
              | [] => .error .indexError
              | x :: _ => labelledKey label primary x
        | v => labelledKey label primary v

/-- C9 (counterexample): two parts of the claim fail on the code.
(1) The claim says a non-primary experiment's `get_primary_key_field()`
is always `None` regardless of the declared key shape, including shapes
of length > 2; in the code the length-check `raise` (line 65) happens
before `self._primary` is consulted (line 73), so a non-primary
experiment with a declared 3-tuple key raises
`ExperimentConfigurationException` instead of returning `None`.
(2) The claim says a key addressing one element of a sequence-valued
field yields "a (field, index) pair" — a literal tuple, which is what
the consumer `capture.py:59-76` branches on with `type(field) is tuple`
and indexes with `field[0]`/`field[1]` — but for the declared key
`('f', 0)` the code returns the label-prefixed STRING `"e_f[0]"`
(built at line 63 and prefixed at line 73), not a tuple. -/
theorem c9_counterexample :
    getPrimaryKeyField "e" false (.tup [.str "a", .str "b", .str "c"]) =
      .error .configurationError ∧
    getPrimaryKeyField "e" true (.tup [.str "f", .num 0]) =
      .ok (some (.str "e_f[0]")) ∧
    getPrimaryKeyField "e" true (.tup [.str "f", .num 0]) ≠
      .ok (some (.tup [.str "f", .num 0])) := by
  refine ⟨rfl, rfl, fun h => ?_⟩
  have hstr : getPrimaryKeyField "e" true (.tup [.str "f", .num 0]) =
      .ok (some (.str "e_f[0]")) := rfl
  have h2 := hstr.symm.trans h
  injection h2 with h3
  injection h3 with h4
  exact PyVal.noConfusion h4

/-- C9 (amended): `get_primary_key_field()` returns `None` when the
declared key is absent; for a primary experiment it returns the
label-prefixed field name for a one-field key and the label-prefixed
`field[index]` name (built from the declared (field, index) pair) for a
two-element key; a declared key tuple of length > 2 raises the
configuration error regardless of the `primary` flag; and a non-primary
experiment gets `None` for every declared key shape of length ≤ 2. -/
theorem c9_amended :
    (∀ l p, getPrimaryKeyField l p .noneV = .ok none) ∧
    (∀ l s, getPrimaryKeyField l true (.tup [.str s]) =
      .ok (some (.str (l ++ "_" ++ s)))) ∧
    (∀ l a b, getPrimaryKeyField l true (.tup [a, b]) =
      .ok (some (.str (l ++ "_" ++ (pyStrOf a ++ "[" ++ pyStrOf b ++ "]"))))) ∧
    (∀ l p x y z r, getPrimaryKeyField l p (.tup (x :: y :: z :: r)) =
      .error .configurationError) ∧
    (∀ l s, getPrimaryKeyField l false (.tup [.str s]) = .ok none) ∧
    (∀ l v w, getPrimaryKeyField l false (.tup [v, w]) = .ok none) := by
  refine ⟨fun l p => rfl, fun l s => rfl, fun l a b => rfl,
    fun l p x y z r => ?_, fun l s => rfl, fun l v w => rfl⟩
  simp [getPrimaryKeyField, pyTruthy]

/-! ## The orchestrator main loop

From `src/jtfadump2.py`: class `ExperimentNode` (lines 29-38) and the
stepping loop of `main` (lines 232-308).  Each node owns one experiment
object; distinct nodes own distinct objects, which we model by a
numeric identifier per node.  The mutable counters of every experiment
live in a store indexed by identifier; every experiment in the tree is
a `_SteppedExperiment` (all concrete variants inherit its counter
behaviour), so a store entry is an `ExpState`.

The loop state carries, exactly as in `main`:
* `frontier` — the `experiment_nodes` list (mutated at lines 240-241,
  257, 295);
* `active` — `active_experiments` (lines 238, 246-247, 296);
* `running` — `running_experiments` (lines 233, 249-250), the list the
  `finally:` block (lines 305-308) calls `stop()` over;
* `events` — one entry per leaf capture (lines 259-292), recording the
  state merged into the record at lines 271-273: for every active
  experiment, its identifier and its `current_step`;
* `stepped` — a history variable recording every `step()` invocation
  (line 253), used to state the cleanup guarantee.  It is not part of
  the source's state and nothing in the transition function reads it.
-/

inductive ExperimentNode where
  | mk (id : Nat) (children : List ExperimentNode)

def nodeId : ExperimentNode → Nat
  | .mk i _ => i

def nodeChildren : ExperimentNode → List ExperimentNode
  | .mk _ cs => cs

/-- A capture event: for each active experiment in list order, its
identifier and the `current_step` its `get_state()` reports. -/
abbrev Event := List (Nat × Nat)

structure LoopState where
  frontier : List ExperimentNode
  store : Nat → ExpState
  active : List Nat
  running : List Nat
  stepped : List Nat
  events : List Event

/-- Python `list.remove(x)`: delete the first occurrence of `x`, or
raise `ValueError` (`none`) when `x` is not present — as at
`jtfadump2.py:296`. -/
def listRemove (l : List Nat) (x : Nat) : Option (List Nat) :=
  match l with
  | [] => none
  | y :: ys => if y = x then some ys else (listRemove ys x).map (y :: ·)

/-- The experiment-state part of the capture record (lines 271-273):
`for e in active_experiments: data.update(e.get_state())`. -/
def captureEvent (active : List Nat) (store : Nat → ExpState) : Event :=
  active.map fun i => (i, (store i).currentStep)

inductive IterResult where
  | ok (s : LoopState)
  | err (s : LoopState)

/-- One iteration of the `while experiment_nodes:` loop (lines 240-299)
with `node :: rest` the current frontier.  In the `has_next()` branch
the experiment is appended to `active_experiments` and
`running_experiments` if absent (lines 246-250) and stepped (line 253);
a node with children splices them to the front of the frontier (line
257), a leaf emits one capture event (lines 259-292).  In the other
branch the node is popped, the experiment removed from
`active_experiments` — `ValueError` if absent — and reset (lines
295-299). -/
def loopIter (s : LoopState) (node : ExperimentNode) (rest : List ExperimentNode) :
    IterResult :=
  let e := nodeId node
  if hasNext (s.store e) then
    let active := if e ∈ s.active then s.active else s.active ++ [e]
    let running := if e ∈ s.running then s.running else s.running ++ [e]
    let stepped := s.stepped ++ [e]
    let store := fun j => if j = e then stepExp (s.store e) else s.store j
    match nodeChildren node with
    | [] =>
        .ok { frontier := node :: rest, store := store, active := active,
              running := running, stepped := stepped,
              events := s.events ++ [captureEvent active store] }
    | cs =>
        .ok { frontier := cs ++ node :: rest, store := store, active := active,
              running := running, stepped := stepped, events := s.events }
  else
    match listRemove s.active e with
    | some active =>
        .ok { frontier := rest,
              store := fun j => if j = e then resetExp (s.store e) else s.store j,
              active := active, running := s.running, stepped := s.stepped,
              events := s.events }
    | none => .err { s with frontier := rest }

inductive Status where
  | more
  | finished
  | errored
deriving DecidableEq, Repr

/-- Run up to `fuel` iterations of the stepping loop.  `finished` models
falling out of the `while` normally; `errored` models the `ValueError`
escaping (the state returned is the one the `finally:` block observes);
`more` means the fuel was exhausted with the loop still running — which
also serves as an arbitrary abort point for modelling an exception
thrown between iterations. -/
def runSteps : Nat → LoopState → LoopState × Status
  | 0, s => (s, .more)
  | n + 1, s =>
      match s.frontier with
      | [] => (s, .finished)
      | node :: rest =>
          match loopIter s node rest with
          | .ok s' => runSteps n s'
          | .err s' => (s', .errored)

/-- The initial state of the stepping loop: the configured forest, fresh
counters everywhere (`maxf i` is node `i`'s `_step_maximum()`), and all
four lists empty (lines 233, 238). -/
def initState (maxf : Nat → Nat) (forest : List ExperimentNode) : LoopState :=
  { frontier := forest, store := fun i => initExp (maxf i),
    active := [], running := [], stepped := [], events := [] }

/-- The sequence of `stop()` calls the `finally:` block performs
(lines 305-308): one per entry of `running_experiments`, in order. -/
def stopCalls (s : LoopState) : List Nat :=
  s.running

/-- The state the `finally:` block observes when the exception is thrown
by `step()` itself (or anything later in the same iteration): the
active/running/stepped updates of lines 246-250 precede the `step()`
call of line 253, so they have already happened. -/
def faultAfterAdd (s : LoopState) : LoopState :=
  match s.frontier with
  | [] => s
  | node :: _ =>
      let e := nodeId node
      if hasNext (s.store e) then
        { s with active := if e ∈ s.active then s.active else s.active ++ [e],
                 running := if e ∈ s.running then s.running else s.running ++ [e],
                 stepped := s.stepped ++ [e] }
      else s

lemma runSteps_ok {s : LoopState} {node : ExperimentNode}
    {rest : List ExperimentNode} {s' : LoopState}
    (hf : s.frontier = node :: rest) (hit : loopIter s node rest = .ok s')
    (n : Nat) : runSteps (n + 1) s = runSteps n s' := by
  rw [runSteps, hf]
  simp [hit]

lemma runSteps_err {s : LoopState} {node : ExperimentNode}
    {rest : List ExperimentNode} {s' : LoopState}
    (hf : s.frontier = node :: rest) (hit : loopIter s node rest = .err s')
    (n : Nat) : runSteps (n + 1) s = (s', .errored) := by
  rw [runSteps, hf]
  simp [hit]

lemma runSteps_nil {s : LoopState} (hf : s.frontier = []) (n : Nat) :
    runSteps (n + 1) s = (s, .finished) := by
  rw [runSteps, hf]

/-! ### C4: cleanup invariant -/

/-- The invariant connecting `running_experiments` to the set of
experiments ever stepped. -/
def CleanupInv (s : LoopState) : Prop :=
  s.running.Nodup ∧ ∀ x, x ∈ s.running ↔ x ∈ s.stepped

lemma cleanupInv_init (maxf : Nat → Nat) (forest : List ExperimentNode) :
    CleanupInv (initState maxf forest) := by
  constructor
  · exact List.nodup_nil
  · intro x
    simp [initState]

lemma mem_append_singleton {l : List Nat} {a x : Nat} :
    x ∈ l ++ [a] ↔ x ∈ l ∨ x = a := by
  simp

lemma cleanupInv_iter {s : LoopState} (node : ExperimentNode)
    (rest : List ExperimentNode) (h : CleanupInv s) :
    (∀ s', loopIter s node rest = .ok s' → CleanupInv s') ∧
    (∀ s', loopIter s node rest = .err s' → CleanupInv s') := by
  obtain ⟨hnd, hmem⟩ := h
  unfold loopIter
  by_cases hn : hasNext (s.store (nodeId node))
  · simp only [hn, if_true]
    constructor
    · intro s' hs'
      have hrun : CleanupInv
          { s with
            active := if nodeId node ∈ s.active then s.active else s.active ++ [nodeId node],
            running := if nodeId node ∈ s.running then s.running else s.running ++ [nodeId node],
            stepped := s.stepped ++ [nodeId node] } := by
        constructor
        · by_cases hr : nodeId node ∈ s.running
          · simpa [hr] using hnd
          · simp only [hr, if_false]
            rw [List.nodup_append]
            refine ⟨hnd, List.nodup_singleton _, ?_⟩
            intro x hxl hxr
            rw [List.mem_singleton] at hxr
            subst hxr
            exact hr hxl
        · intro x
          by_cases hr : nodeId node ∈ s.running
          · simp only [hr, if_true]
            constructor
            · intro hx
              exact List.mem_append_left _ ((hmem x).1 hx)
            · intro hx
              rcases List.mem_append.1 hx with hx | hx
              · exact (hmem x).2 hx
              · simp only [List.mem_singleton] at hx
                subst hx
                exact hr
          · simp only [hr, if_false, List.mem_append, List.mem_singleton]
            constructor
            · rintro (hx | hx)
              · exact Or.inl ((hmem x).1 hx)
              · exact Or.inr hx
            · rintro (hx | hx)
              · exact Or.inl ((hmem x).2 hx)
              · exact Or.inr hx
      rcases hcs : nodeChildren node with _ | ⟨c, cs⟩ <;>
        · rw [hcs] at hs'
          cases hs'
          exact hrun
    · intro s' hs'
      rcases hcs : nodeChildren node with _ | ⟨c, cs⟩ <;>
        · rw [hcs] at hs'
          cases hs'
  · simp only [hn, if_false]
    rcases hrm : listRemove s.active (nodeId node) with _ | a
    · constructor
      · intro s' hs'
        cases hs'
      · intro s' hs'
        cases hs'
        exact ⟨hnd, hmem⟩
    · constructor
      · intro s' hs'
        cases hs'
        exact ⟨hnd, hmem⟩
      · intro s' hs'
        cases hs'

lemma cleanupInv_runSteps (n : Nat) (s : LoopState) (h : CleanupInv s) :
    CleanupInv (runSteps n s).1 := by
  induction n generalizing s with
  | zero => exact h
  | succ k ih =>
      rcases hf : s.frontier with _ | ⟨node, rest⟩
      · rw [runSteps_nil hf]
        exact h
      · rcases hit : loopIter s node rest with s' | s'
        · rw [runSteps_ok hf hit]
          exact ih s' ((cleanupInv_iter node rest h).1 s' hit)
        · rw [runSteps_err hf hit]
          exact (cleanupInv_iter node rest h).2 s' hit

lemma cleanupInv_faultAfterAdd (s : LoopState) (h : CleanupInv s) :
    CleanupInv (faultAfterAdd s) := by
  obtain ⟨hnd, hmem⟩ := h
  unfold faultAfterAdd
  rcases hf : s.frontier with _ | ⟨node, rest⟩
  · exact ⟨hnd, hmem⟩
  · by_cases hn : hasNext (s.store (nodeId node))
    · simp only [hn, if_true]
      constructor
      · by_cases hr : nodeId node ∈ s.running
        · simpa [hr] using hnd
        · simp only [hr, if_false]
          rw [List.nodup_append]
          refine ⟨hnd, List.nodup_singleton _, ?_⟩
          intro x hxl hxr
          rw [List.mem_singleton] at hxr
          subst hxr
          exact hr hxl
      · intro x
        by_cases hr : nodeId node ∈ s.running
        · simp only [hr, if_true, List.mem_append, List.mem_singleton]
          constructor
          · intro hx
            exact Or.inl ((hmem x).1 hx)
          · rintro (hx | hx)
            · exact (hmem x).2 hx
            · subst hx
              exact hr
        · simp only [hr, if_false, List.mem_append, List.mem_singleton]
          constructor
          · rintro (hx | hx)
            · exact Or.inl ((hmem x).1 hx)
            · exact Or.inr hx
          · rintro (hx | hx)
            · exact Or.inl ((hmem x).2 hx)
            · exact Or.inr hx
    · simp only [hn, if_false]
      exact ⟨hnd, hmem⟩

/-- C4: whenever the stepping loop is aborted by an error — after any
number `n` of completed iterations, optionally in the middle of an
iteration at or after the `step()` call (`fault = true`), including the
loop's own `ValueError` — the `finally:` block calls `stop()` exactly
once for every experiment on which `step()` was ever invoked in this
run, and never for an experiment that was never started:
`stopCalls` is exactly `running_experiments`, it has no duplicates, and
membership in it coincides with membership in the step history. -/
theorem c4_stop_cleanup (maxf : Nat → Nat) (forest : List ExperimentNode)
    (n : Nat) (fault : Bool) :
    (stopCalls (if fault then faultAfterAdd (runSteps n (initState maxf forest)).1
                else (runSteps n (initState maxf forest)).1)).Nodup ∧
    (∀ x, x ∈ stopCalls (if fault then faultAfterAdd (runSteps n (initState maxf forest)).1
                         else (runSteps n (initState maxf forest)).1) ↔
          x ∈ (if fault then faultAfterAdd (runSteps n (initState maxf forest)).1
               else (runSteps n (initState maxf forest)).1).stepped) ∧
    (∀ x, (stopCalls (if fault then faultAfterAdd (runSteps n (initState maxf forest)).1
                      else (runSteps n (initState maxf forest)).1)).count x =
          if x ∈ (if fault then faultAfterAdd (runSteps n (initState maxf forest)).1
                  else (runSteps n (initState maxf forest)).1).stepped then 1 else 0) := by
  have hbase := cleanupInv_runSteps n _ (cleanupInv_init maxf forest)
  have h : CleanupInv (if fault then faultAfterAdd (runSteps n (initState maxf forest)).1
                       else (runSteps n (initState maxf forest)).1) := by
    cases fault
    · simpa using hbase
    · simpa using cleanupInv_faultAfterAdd _ hbase
  obtain ⟨hnd, hmem⟩ := h
  refine ⟨hnd, hmem, fun x => ?_⟩
  by_cases hx : x ∈ (if fault then faultAfterAdd (runSteps n (initState maxf forest)).1
                     else (runSteps n (initState maxf forest)).1).stepped
  · rw [if_pos hx]
    exact List.count_eq_one_of_mem hnd ((hmem x).2 hx)
  · rw [if_neg hx]
    exact List.count_eq_zero.2 (fun hc => hx ((hmem x).1 hc))

/-! ### C10: exhausted-but-never-stepped nodes raise `ValueError` -/

lemma listRemove_eq_none {l : List Nat} {x : Nat} (h : x ∉ l) :
    listRemove l x = none := by
  induction l with
  | nil => rfl
  | cons y ys ih =>
      rw [listRemove]
      rw [List.mem_cons, not_or] at h
      rw [if_neg (fun hy => h.1 hy.symm), ih h.2]
      rfl

/-- C10: if the node at the front of the frontier holds an experiment
whose `has_next()` is false while the experiment is not in
`active_experiments` — which is the situation of an experiment that has
not been stepped in the current traversal, e.g. one configured with
`step_maximum = 0` — the loop pops the node and then
`active_experiments.remove(...)` (jtfadump2.py:296) raises `ValueError`:
the run terminates with an error (no event is emitted, nothing is
silently skipped) rather than continuing. -/
theorem c10_never_stepped_valueerror (s : LoopState) (node : ExperimentNode)
    (rest : List ExperimentNode) (n : Nat)
    (hf : s.frontier = node :: rest)
    (hn : hasNext (s.store (nodeId node)) = false)
    (ha : nodeId node ∉ s.active) :
    runSteps (n + 1) s = ({ s with frontier := rest }, .errored) := by
  have hit : loopIter s node rest = .err { s with frontier := rest } := by
    simp [loopIter, hn, listRemove_eq_none ha]
  exact runSteps_err hf hit n

/-- C10 (witness): a single root whose experiment has
`step_maximum = 0` errors on the very first iteration. -/
theorem c10_never_stepped_valueerror_witness :
    runSteps 1 (initState (fun _ => 0) [.mk 0 []]) =
      ({ initState (fun _ => 0) [.mk 0 []] with frontier := [] }, .errored) ∧
    (initState (fun _ => 0) [.mk 0 []]).frontier = [ExperimentNode.mk 0 []] ∧
    hasNext ((initState (fun _ => 0) [.mk 0 []]).store 0) = false ∧
    0 ∉ (initState (fun _ => 0) [.mk 0 []]).active := by
  refine ⟨?_, rfl, rfl, by simp [initState]⟩
  exact c10_never_stepped_valueerror _ (.mk 0 []) [] 0 rfl rfl (by simp [initState])

/-! ### C1: the depth-first cartesian sweep

The expected trace is specified by `sweep`: for a node with
`step_maximum = m`, the loop steps the node `m` times, and after the
step with `current_step = k` it either emits one event (leaf) or runs
each child's full sweep in order (children spliced to the front of the
frontier), so the deepest dimension varies fastest.  `iters` counts the
loop iterations a full sweep of a subtree consumes (`m` stepping visits,
each followed by the children's iterations, plus the final
exhaustion-pop visit).  `leafTotal` is the claim's count: the sum over
all root-to-leaf paths of the product of `step_maximum` over the path's
nodes. -/

def idsOf : ExperimentNode → List Nat
  | .mk i cs => i :: (cs.attach.map fun c => idsOf c.1).flatten
termination_by t => sizeOf t
decreasing_by
  have := List.sizeOf_lt_of_mem c.2
  simp only [ExperimentNode.mk.sizeOf_spec]
  omega

def sweep (maxf : Nat → Nat) (pre : Event) : ExperimentNode → List Event
  | .mk i cs =>
      ((List.range (maxf i)).map fun k =>
        if cs.isEmpty then [pre ++ [(i, k)]]
        else (cs.attach.map fun c => sweep maxf (pre ++ [(i, k)]) c.1).flatten).flatten
termination_by t => sizeOf t
decreasing_by
  have := List.sizeOf_lt_of_mem c.2
  simp only [ExperimentNode.mk.sizeOf_spec]
  omega

def iters (maxf : Nat → Nat) : ExperimentNode → Nat
  | .mk i cs => maxf i * (1 + (cs.attach.map fun c => iters maxf c.1).sum) + 1
termination_by t => sizeOf t
decreasing_by
  have := List.sizeOf_lt_of_mem c.2
  simp only [ExperimentNode.mk.sizeOf_spec]
  omega

def leafTotal (maxf : Nat → Nat) : ExperimentNode → Nat
  | .mk i cs =>
      if cs.isEmpty then maxf i
      else maxf i * (cs.attach.map fun c => leafTotal maxf c.1).sum
termination_by t => sizeOf t
decreasing_by
  have := List.sizeOf_lt_of_mem c.2
  simp only [ExperimentNode.mk.sizeOf_spec]
  omega

lemma node_ind {motive : ExperimentNode → Prop}
    (h : ∀ i cs, (∀ c, c ∈ cs → motive c) → motive (.mk i cs)) :
    ∀ t, motive t
  | .mk i cs => h i cs (fun c hc => node_ind h c)
termination_by t => sizeOf t
decreasing_by
  have := List.sizeOf_lt_of_mem hc
  simp only [ExperimentNode.mk.sizeOf_spec]
  omega

lemma attach_map_val {α : Type} {β : Type} (l : List α) (f : α → β) :
    (l.attach.map fun c => f c.1) = l.map f :=
  List.attach_map_coe l f

lemma idsOf_mk (i : Nat) (cs : List ExperimentNode) :
    idsOf (.mk i cs) = i :: (cs.map idsOf).flatten := by
  unfold idsOf
  rw [attach_map_val]

lemma sweep_mk (maxf : Nat → Nat) (pre : Event) (i : Nat)
    (cs : List ExperimentNode) :
    sweep maxf pre (.mk i cs) =
      ((List.range (maxf i)).map fun k =>
        if cs.isEmpty then [pre ++ [(i, k)]]
        else (cs.map (sweep maxf (pre ++ [(i, k)]))).flatten).flatten := by
  unfold sweep
  simp only [attach_map_val]

lemma flatten_map_singleton {α : Type} {β : Type} (l : List α) (f : α → β) :
    (l.map fun x => [f x]).flatten = l.map f := by
  induction l with
  | nil => rfl
  | cons a l ih => simp [ih]

lemma sweep_leaf (maxf : Nat → Nat) (pre : Event) (i : Nat) :
    sweep maxf pre (.mk i []) = (List.range (maxf i)).map fun k => pre ++ [(i, k)] := by
  rw [sweep_mk]
  simp only [List.isEmpty_nil, if_true]
  exact flatten_map_singleton _ _

lemma sweep_cons (maxf : Nat → Nat) (pre : Event) (i : Nat) (c0 : ExperimentNode)
    (cs0 : List ExperimentNode) :
    sweep maxf pre (.mk i (c0 :: cs0)) =
      ((List.range (maxf i)).map fun k =>
        ((c0 :: cs0).map (sweep maxf (pre ++ [(i, k)]))).flatten).flatten := by
  rw [sweep_mk]
  simp

lemma iters_mk (maxf : Nat → Nat) (i : Nat) (cs : List ExperimentNode) :
    iters maxf (.mk i cs) = maxf i * (1 + (cs.map (iters maxf)).sum) + 1 := by
  unfold iters
  rw [attach_map_val]

lemma leafTotal_mk (maxf : Nat → Nat) (i : Nat) (cs : List ExperimentNode) :
    leafTotal maxf (.mk i cs) =
      if cs.isEmpty then maxf i
      else maxf i * (cs.map (leafTotal maxf)).sum := by
  unfold leafTotal
  simp only [attach_map_val]

/-! ### Helper lemmas about the loop's primitive operations -/

lemma listRemove_append_singleton {A : List Nat} {i : Nat} (h : i ∉ A) :
    listRemove (A ++ [i]) i = some A := by
  induction A with
  | nil => simp [listRemove]
  | cons a as ih =>
      rw [List.cons_append, listRemove]
      have hai : ¬ a = i := fun hh => h (by simp [hh])
      rw [if_neg hai, ih (fun hm => h (List.mem_cons_of_mem _ hm))]
      rfl

lemma captureEvent_append (A B : List Nat) (st : Nat → ExpState) :
    captureEvent (A ++ B) st = captureEvent A st ++ captureEvent B st := by
  simp [captureEvent]

lemma captureEvent_update_not_mem {A : List Nat} {i : Nat} (h : i ∉ A)
    (x : ExpState) (st : Nat → ExpState) :
    captureEvent A (fun j => if j = i then x else st j) = captureEvent A st := by
  unfold captureEvent
  apply List.map_congr_left
  intro a ha
  have hai : ¬ a = i := fun hh => h (hh ▸ ha)
  simp [hai]

lemma iter_step_leaf (s : LoopState) (i : Nat) (rest : List ExperimentNode)
    (hn : hasNext (s.store i) = true)
    {A1 : List Nat} (hA1 : (if i ∈ s.active then s.active else s.active ++ [i]) = A1) :
    loopIter s (.mk i []) rest = .ok
      { frontier := .mk i [] :: rest,
        store := fun j => if j = i then stepExp (s.store i) else s.store j,
        active := A1,
        running := if i ∈ s.running then s.running else s.running ++ [i],
        stepped := s.stepped ++ [i],
        events := s.events ++
          [captureEvent A1 (fun j => if j = i then stepExp (s.store i) else s.store j)] } := by
  subst hA1
  simp [loopIter, nodeId, nodeChildren, hn]

lemma iter_step_children (s : LoopState) (i : Nat) (c0 : ExperimentNode)
    (cs0 rest : List ExperimentNode)
    (hn : hasNext (s.store i) = true)
    {A1 : List Nat} (hA1 : (if i ∈ s.active then s.active else s.active ++ [i]) = A1) :
    loopIter s (.mk i (c0 :: cs0)) rest = .ok
      { frontier := (c0 :: cs0) ++ .mk i (c0 :: cs0) :: rest,
        store := fun j => if j = i then stepExp (s.store i) else s.store j,
        active := A1,
        running := if i ∈ s.running then s.running else s.running ++ [i],
        stepped := s.stepped ++ [i],
        events := s.events } := by
  subst hA1
  simp [loopIter, nodeId, nodeChildren, hn]

lemma iter_exhaust (s : LoopState) (i : Nat) (cs rest : List ExperimentNode)
    {A : List Nat}
    (hn : hasNext (s.store i) = false)
    (hrm : listRemove s.active i = some A) :
    loopIter s (.mk i cs) rest = .ok
      { frontier := rest,
        store := fun j => if j = i then resetExp (s.store i) else s.store j,
        active := A, running := s.running, stepped := s.stepped,
        events := s.events } := by
  simp [loopIter, nodeId, nodeChildren, hn, hrm]

/-! ### The round structure of one node's sweep

`roundsEvents maxf pre i cs c k` is the trace the node `i` (children
`cs`) appends while its experiment's `next_step` runs from `c` up to
`c + k = step_maximum`: for each remaining index `v`, either one leaf
event `pre ++ [(i, v)]` or the full sweeps of the children with prefix
`pre ++ [(i, v)]`. -/

def roundsEvents (maxf : Nat → Nat) (pre : Event) (i : Nat)
    (cs : List ExperimentNode) (c k : Nat) : List Event :=
  ((List.range' c k).map fun v =>
    if cs.isEmpty then [pre ++ [(i, v)]]
    else (cs.map (sweep maxf (pre ++ [(i, v)]))).flatten).flatten

lemma roundsEvents_zero (maxf : Nat → Nat) (pre : Event) (i : Nat)
    (cs : List ExperimentNode) (c : Nat) :
    roundsEvents maxf pre i cs c 0 = [] := rfl

lemma roundsEvents_succ (maxf : Nat → Nat) (pre : Event) (i : Nat)
    (cs : List ExperimentNode) (c k : Nat) :
    roundsEvents maxf pre i cs c (k + 1) =
      (if cs.isEmpty then [pre ++ [(i, c)]]
       else (cs.map (sweep maxf (pre ++ [(i, c)]))).flatten) ++
      roundsEvents maxf pre i cs (c + 1) k := by
  rw [roundsEvents, roundsEvents, List.range'_succ]
  simp

lemma sweep_eq_roundsEvents (maxf : Nat → Nat) (pre : Event) (i : Nat)
    (cs : List ExperimentNode) :
    sweep maxf pre (.mk i cs) = roundsEvents maxf pre i cs 0 (maxf i) := by
  rw [sweep_mk, roundsEvents, List.range_eq_range']

/-! ### The sweep specification -/

/-- The behaviour of the loop on a frontier whose head is a fresh
subtree `t`: it consumes `iters maxf t` iterations, removes `t` from
the frontier, restores the store and the active list, and appends
exactly the depth-first cartesian sweep of `t` (prefixed by the state
of the currently active ancestors) to the event trace. -/
def SweepSpec (maxf : Nat → Nat) (t : ExperimentNode) : Prop :=
  ∀ (rest : List ExperimentNode) (s : LoopState) (n : Nat),
    s.frontier = t :: rest →
    (∀ j ∈ idsOf t, s.store j = initExp (maxf j)) →
    (∀ j ∈ idsOf t, j ∉ s.active) →
    (idsOf t).Nodup →
    (∀ j ∈ idsOf t, 1 ≤ maxf j) →
    ∃ s' : LoopState,
      runSteps (iters maxf t + n) s = runSteps n s' ∧
      s'.frontier = rest ∧
      s'.store = s.store ∧
      s'.active = s.active ∧
      s'.events = s.events ++ sweep maxf (captureEvent s.active s.store) t

/-- Sweeping a list of fresh subtrees at the front of the frontier, one
after the other. -/
lemma childrenSpec (maxf : Nat → Nat) :
    ∀ (cs : List ExperimentNode), (∀ c ∈ cs, SweepSpec maxf c) →
    ∀ (rest : List ExperimentNode) (s : LoopState) (n : Nat),
    s.frontier = cs ++ rest →
    (∀ j ∈ (cs.map idsOf).flatten, s.store j = initExp (maxf j)) →
    (∀ j ∈ (cs.map idsOf).flatten, j ∉ s.active) →
    ((cs.map idsOf).flatten).Nodup →
    (∀ j ∈ (cs.map idsOf).flatten, 1 ≤ maxf j) →
    ∃ s' : LoopState,
      runSteps ((cs.map (iters maxf)).sum + n) s = runSteps n s' ∧
      s'.frontier = rest ∧
      s'.store = s.store ∧
      s'.active = s.active ∧
      s'.events = s.events ++
        (cs.map (sweep maxf (captureEvent s.active s.store))).flatten := by
  intro cs
  induction cs with
  | nil =>
      intro _ rest s n hf _ _ _ _
      refine ⟨s, ?_, ?_, rfl, rfl, ?_⟩
      · simp
      · simpa using hf
      · simp
  | cons c0 cs0 ih =>
      intro hall rest s n hf hstore hactive hnodup hmax
      have hflat : ((c0 :: cs0).map idsOf).flatten =
          idsOf c0 ++ (cs0.map idsOf).flatten := by simp
      rw [hflat] at hstore hactive hnodup hmax
      obtain ⟨s1, hrun1, hf1, hst1, hac1, hev1⟩ :=
        hall c0 (List.mem_cons_self _ _) (cs0 ++ rest) s
          ((cs0.map (iters maxf)).sum + n)
          (by simpa using hf)
          (fun j hj => hstore j (List.mem_append_left _ hj))
          (fun j hj => hactive j (List.mem_append_left _ hj))
          (List.Nodup.of_append_left hnodup)
          (fun j hj => hmax j (List.mem_append_left _ hj))
      obtain ⟨s2, hrun2, hf2, hst2, hac2, hev2⟩ :=
        ih (fun c hc => hall c (List.mem_cons_of_mem _ hc)) rest s1 n hf1
          (fun j hj => by rw [hst1]; exact hstore j (List.mem_append_right _ hj))
          (fun j hj => by rw [hac1]; exact hactive j (List.mem_append_right _ hj))
          (List.Nodup.of_append_right hnodup)
          (fun j hj => hmax j (List.mem_append_right _ hj))
      refine ⟨s2, ?_, hf2, by rw [hst2, hst1], by rw [hac2, hac1], ?_⟩
      · have harith : ((c0 :: cs0).map (iters maxf)).sum + n =
            iters maxf c0 + ((cs0.map (iters maxf)).sum + n) := by
          simp [Nat.add_assoc]
        rw [harith, hrun1, hrun2]
      · rw [hev2, hac1, hst1, hev1]
        simp [List.append_assoc]

/-- The remaining rounds of one node's sweep: with `next_step = c` and
`k = step_maximum - c` rounds to go (the experiment being active
already unless `c = 0`), the loop performs `k` stepping visits — each
followed by the children's full sweeps — and one final exhaustion-pop
visit. -/
lemma roundsSpec (maxf : Nat → Nat) (i : Nat) (cs : List ExperimentNode)
    (hcs : ∀ c ∈ cs, SweepSpec maxf c) :
    ∀ (k c cur : Nat) (A : List Nat) (rest : List ExperimentNode)
      (s : LoopState) (n : Nat),
    s.frontier = (.mk i cs) :: rest →
    s.store i = ⟨maxf i, cur, c⟩ →
    c + k = maxf i →
    1 ≤ maxf i →
    s.active = A ++ (if c = 0 then [] else [i]) →
    i ∉ A →
    (∀ j ∈ (cs.map idsOf).flatten, s.store j = initExp (maxf j)) →
    (∀ j ∈ (cs.map idsOf).flatten, j ∉ s.active) →
    ((cs.map idsOf).flatten).Nodup →
    (∀ j ∈ (cs.map idsOf).flatten, 1 ≤ maxf j) →
    i ∉ (cs.map idsOf).flatten →
    ∃ s' : LoopState,
      runSteps (k * (1 + (cs.map (iters maxf)).sum) + 1 + n) s = runSteps n s' ∧
      s'.frontier = rest ∧
      s'.store = (fun j => if j = i then initExp (maxf i) else s.store j) ∧
      s'.active = A ∧
      s'.events = s.events ++ roundsEvents maxf (captureEvent A s.store) i cs c k := by
  intro k
  induction k with
  | zero =>
      intro c cur A rest s n hf hsi hck hm1 hsa hiA hcst hcac hcnd hcmx hics
      have hcne : ¬ c = 0 := by omega
      have hsa' : s.active = A ++ [i] := by rw [hsa, if_neg hcne]
      have hn : hasNext (s.store i) = false := by
        rw [hsi]
        simp only [hasNext]
        simp
        omega
      have hrm : listRemove s.active i = some A := by
        rw [hsa']
        exact listRemove_append_singleton hiA
      have hit := iter_exhaust s i cs rest hn hrm
      refine ⟨{ frontier := rest,
                store := fun j => if j = i then resetExp (s.store i) else s.store j,
                active := A, running := s.running, stepped := s.stepped,
                events := s.events }, ?_, rfl, ?_, rfl, ?_⟩
      · have harith : 0 * (1 + (cs.map (iters maxf)).sum) + 1 + n = n + 1 := by ring
        rw [harith]
        exact runSteps_ok hf hit n
      · funext j
        by_cases hj : j = i
        · subst hj
          simp [hsi, resetExp, initExp]
        · simp [hj]
      · simp [roundsEvents_zero]
  | succ k ihk =>
      intro c cur A rest s n hf hsi hck hm1 hsa hiA hcst hcac hcnd hcmx hics
      have hn : hasNext (s.store i) = true := by
        rw [hsi]
        simp only [hasNext]
        simp
        omega
      have hactA : (if i ∈ s.active then s.active else s.active ++ [i]) = A ++ [i] := by
        by_cases hc0 : c = 0
        · rw [hsa, if_pos hc0]
          have hni : i ∉ A ++ ([] : List Nat) := by simpa using hiA
          rw [if_neg hni]
          simp
        · rw [hsa, if_neg hc0]
          have hmi : i ∈ A ++ [i] := List.mem_append_right _ (by simp)
          rw [if_pos hmi]
      have hAsub : ∀ j, j ∈ A → j ∈ s.active := by
        intro j hj
        rw [hsa]
        exact List.mem_append_left _ hj
      rcases cs with _ | ⟨c0, cs0⟩
      · -- leaf node
        have hit := iter_step_leaf s i rest hn hactA
        obtain ⟨s2, hrun2, hf2, hst2, hac2, hev2⟩ :=
          ihk (c + 1) c A rest
            { frontier := .mk i [] :: rest,
              store := fun j => if j = i then stepExp (s.store i) else s.store j,
              active := A ++ [i],
              running := if i ∈ s.running then s.running else s.running ++ [i],
              stepped := s.stepped ++ [i],
              events := s.events ++
                [captureEvent (A ++ [i])
                  (fun j => if j = i then stepExp (s.store i) else s.store j)] }
            n rfl (by simp [hsi, stepExp]) (by omega) hm1 (by simp) hiA
            (by simp) (by simp) (by simp) (by simp) (by simp)
        refine ⟨s2, ?_, hf2, ?_, hac2, ?_⟩
        · have harith : (k + 1) * (1 + (List.map (iters maxf) []).sum) + 1 + n =
              (k * (1 + (List.map (iters maxf) []).sum) + 1 + n) + 1 := by
            simp
            ring
          rw [harith, runSteps_ok hf hit _, hrun2]
        · rw [hst2]
          funext j
          by_cases hj : j = i
          · subst hj
            simp
          · simp [hj]
        · rw [hev2]
          have hpre : captureEvent A
              (fun j => if j = i then stepExp (s.store i) else s.store j) =
              captureEvent A s.store := captureEvent_update_not_mem hiA _ _
          have hsingle : captureEvent [i]
              (fun j => if j = i then stepExp (s.store i) else s.store j) =
              [(i, c)] := by
            simp [captureEvent, hsi, stepExp]
          dsimp only
          rw [captureEvent_append, hpre, hsingle,
            roundsEvents_succ]
          simp [List.append_assoc]
      · -- node with children
        have hit := iter_step_children s i c0 cs0 rest hn hactA
        have hflat0 : i ∉ ((c0 :: cs0).map idsOf).flatten := hics
        obtain ⟨s1', hrun1, hf1, hst1, hac1, hev1⟩ :=
          childrenSpec maxf (c0 :: cs0) hcs (.mk i (c0 :: cs0) :: rest)
            { frontier := (c0 :: cs0) ++ .mk i (c0 :: cs0) :: rest,
              store := fun j => if j = i then stepExp (s.store i) else s.store j,
              active := A ++ [i],
              running := if i ∈ s.running then s.running else s.running ++ [i],
              stepped := s.stepped ++ [i],
              events := s.events }
            (k * (1 + ((c0 :: cs0).map (iters maxf)).sum) + 1 + n)
            rfl
            (by
              intro j hj
              have hji : ¬ j = i := fun hh => hics (hh ▸ hj)
              simpa [hji] using hcst j hj)
            (by
              intro j hj
              have hji : ¬ j = i := fun hh => hics (hh ▸ hj)
              simp only [List.mem_append]
              rintro (hja | hji')
              · exact hcac j hj (hAsub j hja)
              · simp at hji'
                exact hji hji')
            hcnd hcmx
        obtain ⟨s2, hrun2, hf2, hst2, hac2, hev2⟩ :=
          ihk (c + 1) c A rest s1' n hf1
            (by rw [hst1]; simp [hsi, stepExp])
            (by omega) hm1 (by rw [hac1]; simp) hiA
            (by
              intro j hj
              rw [hst1]
              have hji : ¬ j = i := fun hh => hics (hh ▸ hj)
              simpa [hji] using hcst j hj)
            (by
              intro j hj
              rw [hac1]
              have hji : ¬ j = i := fun hh => hics (hh ▸ hj)
              simp only [List.mem_append]
              rintro (hja | hji')
              · exact hcac j hj (hAsub j hja)
              · simp at hji'
                exact hji hji')
            hcnd hcmx hics
        refine ⟨s2, ?_, hf2, ?_, hac2, ?_⟩
        · have harith : (k + 1) * (1 + ((c0 :: cs0).map (iters maxf)).sum) + 1 + n =
              (((c0 :: cs0).map (iters maxf)).sum +
                (k * (1 + ((c0 :: cs0).map (iters maxf)).sum) + 1 + n)) + 1 := by
            ring
          rw [harith, runSteps_ok hf hit _, hrun1, hrun2]
        · rw [hst2, hst1]
          funext j
          by_cases hj : j = i
          · subst hj
            simp
          · simp [hj]
        · rw [hev2, hev1]
          have hpre : captureEvent A
              (fun j => if j = i then stepExp (s.store i) else s.store j) =
              captureEvent A s.store := captureEvent_update_not_mem hiA _ _
          have hsingle : captureEvent [i]
              (fun j => if j = i then stepExp (s.store i) else s.store j) =
              [(i, c)] := by
            simp [captureEvent, hsi, stepExp]
          have hpreStep : captureEvent (A ++ [i])
              (fun j => if j = i then stepExp (s.store i) else s.store j) =
              captureEvent A s.store ++ [(i, c)] := by
            rw [captureEvent_append, hpre, hsingle]
          have hpre2 : captureEvent A s1'.store = captureEvent A s.store := by
            rw [hst1]
            exact captureEvent_update_not_mem hiA _ _
          dsimp only
          rw [hpreStep, hpre2, roundsEvents_succ]
          simp [List.append_assoc]

/-- Every subtree satisfies the sweep specification. -/
lemma sweepSpec_all (maxf : Nat → Nat) : ∀ t, SweepSpec maxf t := by
  refine node_ind fun i cs ih => ?_
  intro rest s n hf hstore hactive hnodup hmax
  rw [idsOf_mk] at hstore hactive hnodup hmax
  have hm1 : 1 ≤ maxf i := hmax i (List.mem_cons_self _ _)
  have hsi : s.store i = initExp (maxf i) := hstore i (List.mem_cons_self _ _)
  have hiA : i ∉ s.active := hactive i (List.mem_cons_self _ _)
  have hnodup' := List.nodup_cons.1 hnodup
  obtain ⟨s', hrun, hf', hst', hac', hev'⟩ :=
    roundsSpec maxf i cs ih (maxf i) 0 0 s.active rest s n hf
      (by rw [hsi]; rfl) (by omega) hm1 (by simp) hiA
      (fun j hj => hstore j (List.mem_cons_of_mem _ hj))
      (fun j hj => hactive j (List.mem_cons_of_mem _ hj))
      hnodup'.2
      (fun j hj => hmax j (List.mem_cons_of_mem _ hj))
      hnodup'.1
  refine ⟨s', ?_, hf', ?_, hac', ?_⟩
  · rw [iters_mk]
    exact hrun
  · rw [hst']
    funext j
    by_cases hj : j = i
    · subst hj
      simp [hsi]
    · simp [hj]
  · rw [hev', sweep_eq_roundsEvents]

lemma sum_map_const {α : Type} (l : List α) (c : Nat) :
    (l.map fun _ => c).sum = l.length * c := by
  induction l with
  | nil => simp
  | cons a l ih =>
      simp only [List.map_cons, List.sum_cons, ih, List.length_cons]
      ring

/-- The sweep of a subtree contains exactly the sum, over the subtree's
root-to-leaf paths, of the product of `step_maximum` over the path's
nodes. -/
lemma sweep_length (maxf : Nat → Nat) :
    ∀ t, ∀ pre : Event, (sweep maxf pre t).length = leafTotal maxf t := by
  refine node_ind fun i cs ih => ?_
  intro pre
  rcases cs with _ | ⟨c0, cs0⟩
  · rw [sweep_leaf, leafTotal_mk]
    simp
  · rw [sweep_cons, leafTotal_mk]
    simp only [List.isEmpty_cons, if_neg]
    rw [List.length_flatten, List.map_map]
    have hconst : ∀ k ∈ List.range (maxf i),
        (List.length ∘ fun k =>
          ((c0 :: cs0).map (sweep maxf (pre ++ [(i, k)]))).flatten) k =
        ((c0 :: cs0).map (leafTotal maxf)).sum := by
      intro k _
      simp only [Function.comp]
      rw [List.length_flatten, List.map_map]
      congr 1
      apply List.map_congr_left
      intro c hc
      exact ih c hc _
    rw [List.map_congr_left hconst, sum_map_const, List.length_range]
    simp

/-! ### C1: statement over whole forests -/

def forestIds (forest : List ExperimentNode) : List Nat :=
  (forest.map idsOf).flatten

/-- Enough loop iterations to consume the whole forest and then observe
the empty frontier. -/
def forestIters (maxf : Nat → Nat) (forest : List ExperimentNode) : Nat :=
  (forest.map (iters maxf)).sum + 1

/-- The expected full trace: each root's depth-first cartesian sweep, in
forest order, with the empty ancestor prefix. -/
def forestSweep (maxf : Nat → Nat) (forest : List ExperimentNode) : List Event :=
  (forest.map (sweep maxf [])).flatten

/-- The claim's event count: summed over every root-to-leaf path, the
product of `step_maximum` over the path's nodes. -/
def forestLeafTotal (maxf : Nat → Nat) (forest : List ExperimentNode) : Nat :=
  (forest.map (leafTotal maxf)).sum

/-- C1: for a forest in which every node's experiment has
`step_maximum ≥ 1` (and, as in any real configuration, each node owns
its own experiment object — distinct identifiers), the orchestrator
loop terminates normally and its leaf capture events are exactly
`forestSweep`: the depth-first left-to-right nested sweep in which the
deepest dimension varies fastest, whose length is exactly the sum over
root-to-leaf paths of the products of `step_maximum` along each path
(for a single path, the product of all its `step_maximum`s). -/
theorem c1_cartesian_sweep (maxf : Nat → Nat) (forest : List ExperimentNode)
    (hmax : ∀ j ∈ forestIds forest, 1 ≤ maxf j)
    (hnodup : (forestIds forest).Nodup) :
    (runSteps (forestIters maxf forest) (initState maxf forest)).2 = .finished ∧
    (runSteps (forestIters maxf forest) (initState maxf forest)).1.events =
      forestSweep maxf forest ∧
    (forestSweep maxf forest).length = forestLeafTotal maxf forest := by
  obtain ⟨s', hrun, hf', hst', hac', hev'⟩ :=
    childrenSpec maxf forest (fun c _ => sweepSpec_all maxf c) []
      (initState maxf forest) 1
      (by simp [initState])
      (fun j _ => rfl)
      (fun j _ => by simp [initState])
      hnodup hmax
  have hfin : runSteps (forestIters maxf forest) (initState maxf forest) =
      (s', .finished) := by
    rw [forestIters, hrun]
    exact runSteps_nil hf' 0
  refine ⟨by rw [hfin], ?_, ?_⟩
  · rw [hfin]
    rw [hev']
    simp only [initState, captureEvent]
    rw [forestSweep]
    simp
  · rw [forestSweep, forestLeafTotal, List.length_flatten, List.map_map]
    congr 1
    apply List.map_congr_left
    intro c _
    exact sweep_length maxf c []

def forestW : List ExperimentNode := [.mk 0 [.mk 1 []]]

def maxfW : Nat → Nat := fun i => if i = 0 then 2 else 3

/-- C1 (witness): the claim's own example — root `A` (id 0) with
`step_maximum = 2` and one child `B` (id 1) with `step_maximum = 3` —
instantiating the theorem, and the concrete run: the loop finishes
after 12 iterations having emitted exactly the 6 events
A0B0, A0B1, A0B2, A1B0, A1B1, A1B2 in that order. -/
theorem c1_cartesian_sweep_witness :
    (∀ j ∈ forestIds forestW, 1 ≤ maxfW j) ∧
    (forestIds forestW).Nodup ∧
    ((runSteps (forestIters maxfW forestW) (initState maxfW forestW)).2 = .finished ∧
     (runSteps (forestIters maxfW forestW) (initState maxfW forestW)).1.events =
       forestSweep maxfW forestW ∧
     (forestSweep maxfW forestW).length = forestLeafTotal maxfW forestW) ∧
    forestIters maxfW forestW = 12 ∧
    (runSteps 12 (initState maxfW forestW)).2 = .finished ∧
    (runSteps 12 (initState maxfW forestW)).1.events =
      [[(0, 0), (1, 0)], [(0, 0), (1, 1)], [(0, 0), (1, 2)],
       [(0, 1), (1, 0)], [(0, 1), (1, 1)], [(0, 1), (1, 2)]] := by
  have h1 : ∀ j ∈ forestIds forestW, 1 ≤ maxfW j := by
    simp [forestIds, forestW, idsOf_mk, maxfW]
  have h2 : (forestIds forestW).Nodup := by
    simp [forestIds, forestW, idsOf_mk]
  refine ⟨h1, h2, c1_cartesian_sweep maxfW forestW h1 h2, ?_, ?_, ?_⟩
  · simp [forestIters, forestW, maxfW, iters_mk]
  · rfl
  · rfl

end Jtfadump
